import Mathlib

/-!
Verification of the EmbeddingBridge engine against its specification.

The repository ships a Python surface (ctypes wrappers, a vector memory
store, and a test suite) over a native core.  The native core itself (the
`eb` CLI: object store, hash resolution, diff, rollback) is not part of the
Python sources, so those components are modelled from the specification, as
marked on each definition; every other definition is a direct shallow
embedding of the corresponding Python function.

Floating-point values are idealised as exact rationals; NaN and the two
infinities are represented explicitly by the `FVal` type, since the code's
validity checks branch on them.
-/

namespace EB

/-- A single embedding value: a finite (idealised, rational) float, NaN, or
an infinity.  The engine stores any of these but comparisons reject the
non-finite ones. -/
inductive FVal where
  | fin (q : ℚ)
  | nan
  | inf
  | ninf
deriving DecidableEq, Repr

/-- Whether a stored value is finite (neither NaN nor infinite). -/
def FVal.isFiniteVal : FVal → Bool
  | .fin _ => true
  | _ => false

/-- The rational magnitude of a value; non-finite values map to 0 and are
only read after a finiteness check. -/
def FVal.toQ : FVal → ℚ
  | .fin q => q
  | _ => 0

/-- A stored embedding blob: raw values plus the dimension count
(`objects/<hash>.bin` content). -/
structure EmbObj where
  vals : List FVal
  dims : Nat
deriving DecidableEq, Repr

/-- The metadata sidecar (`objects/<hash>.meta`): source path and model
name.  Deliberately excluded from hashing. -/
structure MetaData where
  source : String
  model : String
deriving DecidableEq, Repr

/-- Association-list lookup used for the index, the set table and the
object table. -/
def findVal {α β : Type} [DecidableEq α] (k : α) : List (α × β) → Option β
  | [] => none
  | (k', v) :: rest => if k = k' then some v else findVal k rest

/-- Association-list update: overwrite the first binding of `k`, or append
a new binding. -/
def updVal {α β : Type} [DecidableEq α] (k : α) (v : β) : List (α × β) → List (α × β)
  | [] => [(k, v)]
  | (k', v') :: rest => if k = k' then (k, v) :: rest else (k', v') :: updVal k v rest

/-- Membership test on a key list. -/
def hasKey {α : Type} [DecidableEq α] (k : α) : List α → Bool
  | [] => false
  | x :: xs => if k = x then true else hasKey k xs

/-- Number of occurrences of a key in a key list (used to state "exactly
one blob/sidecar on disk"). -/
def countKey {α : Type} [DecidableEq α] (k : α) : List α → Nat
  | [] => 0
  | x :: xs => (if x = k then 1 else 0) + countKey k xs

/-- Boolean prefix test on character lists (hash prefixes). -/
def isPrefixList : List Char → List Char → Bool
  | [], _ => true
  | _ :: _, [] => false
  | a :: as, b :: bs => if a = b then isPrefixList as bs else false

/-- Hex digit for a value below 16. -/
def hexDigit (n : Nat) : Char :=
  if n = 0 then '0' else if n = 1 then '1' else if n = 2 then '2'
  else if n = 3 then '3' else if n = 4 then '4' else if n = 5 then '5'
  else if n = 6 then '6' else if n = 7 then '7' else if n = 8 then '8'
  else if n = 9 then '9' else if n = 10 then 'a' else if n = 11 then 'b'
  else if n = 12 then 'c' else if n = 13 then 'd' else if n = 14 then 'e'
  else 'f'

/-- Render a number as exactly eight hex characters (most significant
first). -/
def hexHash8 (n : Nat) : List Char :=
  ((List.range 8).map (fun i => hexDigit (n / 16 ^ i % 16))).reverse

/-- Numeric code of one embedding value, folded into the content hash. -/
def fvalCode : FVal → Nat
  | .nan => 0
  | .inf => 1
  | .ninf => 2
  | .fin q => 3 + 2 * q.num.natAbs * q.den + (if q.num < 0 then 1 else 0)

/-- Modelled from the spec: `put` "computes a collision-resistant content
hash over the raw embedding bytes and dimension count only" (§4.1).  The
native hash implementation is not in the Python sources; what the claims
exercise is that it is a deterministic function of the values and the
dimension count alone, which holds for this stand-in by construction. -/
def ebHash (vals : List FVal) (dims : Nat) : List Char :=
  hexHash8 ((vals.foldl (fun a v => a * 311 + fvalCode v + 7) 5381) * 131 + dims)

/-- Kind tag of a history entry. -/
inductive ActionKind where
  | store
  | rollback
deriving DecidableEq, Repr

/-- One append-only history record: source, model, hash, parent hash and
the action that produced it. -/
structure HistEntry where
  source : String
  model : String
  hash : List Char
  parent : Option (List Char)
  kind : ActionKind
deriving DecidableEq, Repr

/-- Per-set state: the current index (source, model) → hash and the
append-only history. -/
structure SetState where
  index : List ((String × String) × List Char)
  history : List HistEntry
deriving DecidableEq, Repr

/-- Modelled from the spec: the on-disk repository (§6): a global object
pool (`objects/<hash>.bin` blobs plus `.meta` sidecars) shared by all sets,
and per-set index/history files. -/
structure Repo where
  objects : List (List Char × EmbObj)
  metas : List (List Char × MetaData)
  sets : List (String × SetState)
deriving DecidableEq, Repr

/-- The empty repository produced by `init`. -/
def Repo.empty : Repo := ⟨[], [], []⟩

/-- Object-pool keys (the stored hashes). -/
def objKeys (r : Repo) : List (List Char) := r.objects.map Prod.fst

/-- Sidecar keys. -/
def metaKeys (r : Repo) : List (List Char) := r.metas.map Prod.fst

/-- Repository well-formedness: stored hashes are distinct, every blob has
exactly one sidecar, and hashes have the fixed eight-character rendering
produced by the content hash. -/
def RepoWf (r : Repo) : Prop :=
  (objKeys r).Nodup ∧ metaKeys r = objKeys r ∧ ∀ h ∈ objKeys r, h.length = 8

instance (r : Repo) : Decidable (RepoWf r) := by
  unfold RepoWf; infer_instance

/-- Set lookup; an absent set reads as empty index and history. -/
def getSet (r : Repo) (name : String) : SetState :=
  (findVal name r.sets).getD ⟨[], []⟩

/-- Modelled from the spec: `put` (§4.1) — if an object with the content
hash already exists the call is a no-op beyond returning the existing hash
(idempotent dedup); otherwise it writes the blob and the metadata
sidecar. -/
def put (r : Repo) (vals : List FVal) (dims : Nat) (md : MetaData) : List Char × Repo :=
  let h := ebHash vals dims
  if hasKey h (objKeys r) then (h, r)
  else (h, { r with objects := r.objects ++ [(h, ⟨vals, dims⟩)],
                    metas := r.metas ++ [(h, md)] })

/-- Error taxonomy surfaced by the engine (§7). -/
inductive EbError where
  | hashTooShort
  | ambiguousHash
  | notFound
  | dimensionMismatch
  | invalidValues
  | notTracked
deriving DecidableEq, Repr

/-- The conformance stderr phrase of each error (§6). -/
def errMsg : EbError → String
  | .hashTooShort => "Hash too short"
  | .ambiguousHash => "ambiguous hash"
  | .notFound => "Embedding not found"
  | .dimensionMismatch => "Embedding dimensions do not match"
  | .invalidValues => "Invalid embedding values"
  | .notTracked => "Source is not tracked"

/-- Modelled from the spec: `resolve` (§4.1) — an exact hash is found
directly; a reference shorter than four characters fails with "Hash too
short"; otherwise a prefix matching exactly one stored object resolves to
it, more than one is ambiguous, none is not found. -/
def resolve (r : Repo) (ref : List Char) : Except EbError (List Char) :=
  if ref.length < 4 then .error .hashTooShort
  else if hasKey ref (objKeys r) then .ok ref
  else
    match (objKeys r).filter (fun k => isPrefixList ref k) with
    | [h] => .ok h
    | [] => .error .notFound
    | _ :: _ :: _ => .error .ambiguousHash

/-- Modelled from the spec: `store` (§2) — hash the embedding, write the
object if new, update the active set's index and append a `store` history
entry whose parent is the previous current hash. -/
def store (r : Repo) (setName source model : String) (vals : List FVal) (dims : Nat) :
    List Char × Repo :=
  let h := (put r vals dims ⟨source, model⟩).1
  let r1 := (put r vals dims ⟨source, model⟩).2
  let ss := getSet r1 setName
  let prev := findVal (source, model) ss.index
  let ss' : SetState :=
    ⟨updVal (source, model) h ss.index,
     ss.history ++ [⟨source, model, h, prev, .store⟩]⟩
  (h, { r1 with sets := updVal setName ss' r1.sets })

/-- Modelled from the spec: `rollback` (§4.5) — resolve the target hash
(NotFound if unresolvable), require the (source, model) pair to be tracked
(NotTracked otherwise), rewrite only the current pointer and append a
`rollback` history entry preserving the superseded hash as parent. -/
def rollback (r : Repo) (setName source model : String) (ref : List Char) :
    Except EbError Repo :=
  match resolve r ref with
  | .error e => .error e
  | .ok h =>
    let ss := getSet r setName
    match findVal (source, model) ss.index with
    | none => .error .notTracked
    | some prev =>
      let ss' : SetState :=
        ⟨updVal (source, model) h ss.index,
         ss.history ++ [⟨source, model, h, some prev, .rollback⟩]⟩
      .ok { r with sets := updVal setName ss' r.sets }

/-- Modelled from the spec: `status` (§4.3) reads only the index and
reports the current hash of a (source, model) pair. -/
def statusOf (r : Repo) (setName source model : String) : Option (List Char) :=
  findVal (source, model) (getSet r setName).index

/-- Dot product of two rational vectors. -/
def dotQ (a b : List ℚ) : ℚ := ((a.zip b).map (fun p => p.1 * p.2)).sum

/-- Sum of squares of a rational vector (the squared euclidean norm). -/
def sqNormQ (a : List ℚ) : ℚ := (a.map (fun x => x * x)).sum

/-- Modelled from the spec: the numeric similarity reported on the general
(non-identity) diff path.  The spec's cosine `dot/(‖a‖·‖b‖)` involves a
square root that has no exact rational value, so the model reports the
exactly-representable squared cosine, scaled to a percentage; no claim
depends on this number, only on the error/short-circuit behaviour around
it. -/
def cosineScoreSq (a b : List ℚ) : ℚ :=
  100 * (dotQ a b * dotQ a b) / (sqNormQ a * sqNormQ b)

/-- Outcome of the top-level `diff` command: a numeric similarity
percentage, or a typed failure (never both). -/
inductive DiffOutcome where
  | similarity (pct : ℚ)
  | fail (e : EbError)
deriving DecidableEq, Repr

/-- CLI exit code of a diff outcome (0 success, 1 failure, §6). -/
def exitCodeOf : DiffOutcome → Nat
  | .similarity _ => 0
  | .fail _ => 1

/-- Modelled from the spec: the top-level `diff` contract (§4.4).  Both
hash arguments go through prefix resolution; comparing a hash to itself
short-circuits to exactly 100% before any load or validity check
("independent of floating-point noise in the general formula"); otherwise
the two objects are loaded, dimension mismatch is a hard failure (checked
first, as in `cosine_similarity`'s contract), then NaN/Inf is a hard
failure, and only then is a numeric score computed. -/
def diff (r : Repo) (ref1 ref2 : List Char) : DiffOutcome :=
  match resolve r ref1 with
  | .error e => .fail e
  | .ok h1 =>
    match resolve r ref2 with
    | .error e => .fail e
    | .ok h2 =>
      if h1 = h2 then .similarity 100
      else
        match findVal h1 r.objects, findVal h2 r.objects with
        | some o1, some o2 =>
          if o1.dims ≠ o2.dims then .fail .dimensionMismatch
          else if o1.vals.all FVal.isFiniteVal && o2.vals.all FVal.isFiniteVal then
            .similarity (cosineScoreSq (o1.vals.map FVal.toQ) (o2.vals.map FVal.toQ))
          else .fail .invalidValues
        | _, _ => .fail .notFound

/-- A numpy array as seen by the bridge: its shape and its flattened
data. -/
structure NpArr where
  shape : List Nat
  data : List ℚ
deriving DecidableEq, Repr

/-- Shallow embedding of `EmbeddingBridge.compare_embeddings`
(src/src/python/embedding_bridge/bridge.py:195-203): arrays of different
shape raise `ValueError("Embedding arrays must have the same shape")`
before any comparison; the success branch delegates to the native
comparator (absent from the sources), represented here by the
spec-modelled rational score. -/
def compare_embeddings (a b : NpArr) : Except String ℚ :=
  if a.shape ≠ b.shape then .error "Embedding arrays must have the same shape"
  else .ok (cosineScoreSq a.data b.data)

/-- Shallow embedding of the normalization step of
`EmbeddingBridge._numpy_to_embedding` (bridge.py:164-169): per-row norms
are computed, zero norms are replaced by 1 (`norms[norms == 0] = 1`), and
each row is divided by its (possibly replaced) norm.  Since the euclidean
norm `√(Σ x²)` is irrational in general, a normalized row is represented
as the pair (original row, squared divisor): the actual scaled row is the
original divided by the square root of the second component, and
`np.linalg.norm(r) = 0` holds exactly iff `sqNormQ r = 0`. -/
def normDivSq (r : List ℚ) : ℚ :=
  if sqNormQ r = 0 then 1 else sqNormQ r

/-- The normalization applied to every row of a 2-D array when
`normalize=True` (each row paired with its squared divisor). -/
def normalizeRows (a : List (List ℚ)) : List (List ℚ × ℚ) :=
  a.map (fun r => (r, normDivSq r))

/-- One stored version in the mock bridge
(src/tests/python/conftest.py:22-40): id, vector, metadata, model version
and timestamp. -/
structure MockVersion where
  vid : Nat
  vec : List ℚ
  meta : List (String × String)
  modelVersion : String
  timestamp : Nat
deriving DecidableEq, Repr

/-- State of `MockEmbeddingBridge` (conftest.py:14-21): the next fresh id
and the per-id version lists. -/
structure MockBridge where
  nextId : Nat
  vectorVersions : List (Nat × List MockVersion)
deriving DecidableEq, Repr

/-- The empty mock bridge (`next_id = 1`). -/
def MockBridge.empty : MockBridge := ⟨1, []⟩

/-- Shallow embedding of `MockEmbeddingBridge.store_vector`
(conftest.py:22-40): allocate a fresh id when none is given, append the
new version to the id's version list, return the id. -/
def store_vector (b : MockBridge) (vec : List ℚ) (meta : List (String × String))
    (modelVersion : String) (vecId : Option Nat) (now : Nat) : Nat × MockBridge :=
  let i := vecId.getD b.nextId
  let nid := if vecId = none then b.nextId + 1 else b.nextId
  let old := (findVal i b.vectorVersions).getD []
  (i, ⟨nid, updVal i (old ++ [⟨i, vec, meta, modelVersion, now⟩]) b.vectorVersions⟩)

/-- Stable insertion of a version into a list kept newest-first, as
Python's stable `sort(key=timestamp, reverse=True)` produces. -/
def insertDesc (x : MockVersion) : List MockVersion → List MockVersion
  | [] => [x]
  | y :: ys => if y.timestamp < x.timestamp then x :: y :: ys else y :: insertDesc x ys

/-- Newest-first stable sort by timestamp, the
`filtered_versions.sort(key=..., reverse=True)` of conftest.py:64. -/
def sortDesc : List MockVersion → List MockVersion
  | [] => []
  | x :: xs => insertDesc x (sortDesc xs)

/-- One change record between consecutive versions (conftest.py:67-79). -/
structure MockChange where
  fromVersion : Nat
  toVersion : Nat
  cosineSimilarity : ℚ
  semanticPreservation : ℚ
  fromModel : String
  toModel : String
deriving DecidableEq, Repr

/-- Changes between consecutive entries of the (newest-first) version
list: entry `i+1` is the "from" side and entry `i` the "to" side. -/
def mkChanges : List MockVersion → List MockChange
  | a :: b :: rest =>
    ⟨b.vid, a.vid, 95 / 100, 9 / 10, b.modelVersion, a.modelVersion⟩ :: mkChanges (b :: rest)
  | _ => []

/-- Result of an evolution query: versions plus consecutive changes. -/
structure Evolution where
  versions : List MockVersion
  changes : List MockChange
deriving DecidableEq, Repr

/-- Shallow embedding of `MockEmbeddingBridge.get_vector_evolution`
(conftest.py:42-84): filter the id's versions to the given time window,
sort them newest first, and derive one change record per consecutive
pair. -/
def get_vector_evolution (b : MockBridge) (vecId : Nat)
    (fromTime toTime : Option Nat) : Evolution :=
  match findVal vecId b.vectorVersions with
  | none => ⟨[], []⟩
  | some versions =>
    let keep := fun (v : MockVersion) =>
      (match fromTime with | none => true | some t => t ≤ v.timestamp) &&
      (match toTime with | none => true | some t => v.timestamp ≤ t)
    let filtered := sortDesc (versions.filter keep)
    ⟨filtered, mkChanges filtered⟩

/-- Shallow embedding of `VectorMemoryStore.store_memory`
(src/src/python/embedding_bridge/store.py:109-133), mock-bridge path: an
embedding whose `ndim` is not exactly 1 raises
`ValueError("Embedding must be a 1D array")` before anything touches the
store; a 1-D embedding is forwarded to the bridge's `store_vector`.  The
array is carried as its numpy shape plus flattened data, so `ndim` is the
length of the shape. -/
def store_memory (b : MockBridge) (shape : List Nat) (vec : List ℚ)
    (meta : List (String × String)) (modelVersion : String)
    (vecId : Option Nat) (now : Nat) : MockBridge × Except String Nat :=
  if shape.length ≠ 1 then (b, .error "Embedding must be a 1D array")
  else
    let (i, b') := store_vector b vec meta modelVersion vecId now
    (b', .ok i)

/-- Shallow embedding of the argv constructed by
`EmbeddingBridge.model_register`
(src/python/embeddingbridge/core.py:385-406): the subcommand words, the
name, then the bare `str(dimensions)` value, then `--normalize` when set,
then `--description <d>` when a non-empty description is given (Python's
`if description:` treats the empty string as absent). -/
def model_register_args (name : String) (dimensions : Nat) (normalize : Bool)
    (description : Option String) : List String :=
  ["model", "register", name, toString dimensions]
    ++ (if normalize then ["--normalize"] else [])
    ++ (match description with
        | none => []
        | some d => if d.isEmpty then [] else ["--description", d])

/-! ## Concrete repositories and bridges used to evaluate the theorems -/

/-- A fixed eight-character hash literal. -/
def hashX : List Char := ['a', 'a', 'a', 'a', '0', '0', '0', '1']

/-- A second hash sharing a four-character prefix with `hashX`. -/
def hashY : List Char := ['a', 'a', 'a', 'a', '0', '0', '0', '2']

/-- A third hash with a distinct prefix. -/
def hashZ : List Char := ['b', 'b', 'c', 'c', '0', '0', '0', '3']

/-- A one-dimensional demo blob. -/
def demoObj : EmbObj := ⟨[FVal.fin 1], 1⟩

/-- A demo sidecar. -/
def demoMeta : MetaData := ⟨"f.txt", "m1"⟩

/-- Three stored objects, two of them sharing the prefix `aaaa`. -/
def resolveRepo : Repo :=
  ⟨[(hashX, demoObj), (hashY, demoObj), (hashZ, demoObj)],
   [(hashX, demoMeta), (hashY, demoMeta), (hashZ, demoMeta)], []⟩

/-- Two stored objects of dimensions 2 and 3. -/
def dimRepo : Repo :=
  ⟨[(hashX, ⟨[FVal.fin 1, FVal.fin 2], 2⟩),
    (hashZ, ⟨[FVal.fin 1, FVal.fin 2, FVal.fin 3], 3⟩)],
   [(hashX, demoMeta), (hashZ, demoMeta)], []⟩

/-- An embedding containing a NaN value. -/
def nanVec : List FVal := [FVal.nan, FVal.fin 1, FVal.fin 2]

/-- A repository holding the NaN embedding (dimension 3) and a finite
one-dimensional embedding, both written through `store`. -/
def c5Repo : Repo :=
  (store (store Repo.empty "main" "nan.txt" "m" nanVec 3).2
    "main" "small.txt" "m" [FVal.fin 1] 1).2

/-- Hash of the stored NaN embedding. -/
def c5HashNan : List Char := ebHash nanVec 3

/-- Hash of the stored finite one-dimensional embedding. -/
def c5HashSmall : List Char := ebHash [FVal.fin 1] 1

/-- Two equal-dimension stored objects, the first containing NaN. -/
def c5WRepo : Repo :=
  ⟨[(hashX, ⟨[FVal.nan, FVal.fin 1], 2⟩), (hashY, ⟨[FVal.fin 1, FVal.fin 2], 2⟩)],
   [(hashX, demoMeta), (hashY, demoMeta)], []⟩

/-- A repository where `("f", "m")` currently points at `hashY` after two
stores, with both hashes in the object pool. -/
def rbRepo : Repo :=
  ⟨[(hashX, demoObj), (hashY, demoObj)],
   [(hashX, demoMeta), (hashY, demoMeta)],
   [("main", ⟨[(("f", "m"), hashY)],
     [⟨"f", "m", hashX, none, .store⟩, ⟨"f", "m", hashY, some hashX, .store⟩]⟩)]⟩

/-- Mock bridge after storing a first version (fresh id 1, timestamp 1). -/
def evoB1 : MockBridge :=
  (store_vector MockBridge.empty [1, 0] [("version", "1")] "model-v1" none 1).2

/-- Mock bridge after updating id 1 with a second version (timestamp 2). -/
def evoB2 : MockBridge :=
  (store_vector evoB1 [0, 1] [("version", "2")] "model-v2" (some 1) 2).2

/-! ## Helper lemmas -/

theorem hasKey_iff {α : Type} [DecidableEq α] (k : α) (l : List α) :
    hasKey k l = true ↔ k ∈ l := by
  induction l with
  | nil => simp [hasKey]
  | cons x xs ih => by_cases h : k = x <;> simp [hasKey, h, ih]

theorem findVal_updVal_self {α β : Type} [DecidableEq α] (k : α) (v : β)
    (l : List (α × β)) : findVal k (updVal k v l) = some v := by
  induction l with
  | nil => simp [updVal, findVal]
  | cons p rest ih =>
    obtain ⟨k', v'⟩ := p
    by_cases h : k = k' <;> simp [updVal, findVal, h, ih]

theorem findVal_updVal_ne {α β : Type} [DecidableEq α] {k j : α} (v : β)
    (l : List (α × β)) (hne : j ≠ k) : findVal j (updVal k v l) = findVal j l := by
  induction l with
  | nil => simp [updVal, findVal, hne]
  | cons p rest ih =>
    obtain ⟨k', v'⟩ := p
    by_cases h : k = k'
    · subst h; simp [updVal, findVal, hne, ih]
    · by_cases h2 : j = k' <;> simp [updVal, findVal, h, h2, ih]

theorem findVal_mem_keys {α β : Type} [DecidableEq α] {k : α} {v : β}
    {l : List (α × β)} (h : findVal k l = some v) : k ∈ l.map Prod.fst := by
  induction l with
  | nil => simp [findVal] at h
  | cons p rest ih =>
    obtain ⟨k', v'⟩ := p
    by_cases hk : k = k'
    · simp [hk]
    · simp only [findVal, if_neg hk] at h
      simp [ih h]

theorem isPrefixList_refl (l : List Char) : isPrefixList l l = true := by
  induction l with
  | nil => rfl
  | cons a as ih => simp [isPrefixList, ih]

theorem isPrefixList_length_le {p s : List Char} (h : isPrefixList p s = true) :
    p.length ≤ s.length := by
  induction p generalizing s with
  | nil => simp
  | cons a as ih =>
    cases s with
    | nil => simp [isPrefixList] at h
    | cons b bs =>
      simp only [isPrefixList] at h
      split at h
      · simpa using ih h
      · exact absurd h (by simp)

theorem isPrefixList_eq_of_length {p s : List Char} (h : isPrefixList p s = true)
    (hl : p.length = s.length) : p = s := by
  induction p generalizing s with
  | nil => cases s with
    | nil => rfl
    | cons b bs => simp at hl
  | cons a as ih =>
    cases s with
    | nil => simp [isPrefixList] at h
    | cons b bs =>
      simp only [isPrefixList] at h
      split at h
      · next hab => simp only [List.length_cons, Nat.add_right_cancel_iff] at hl
                    rw [hab, ih h hl]
      · exact absurd h (by simp)

theorem hexHash8_length (n : Nat) : (hexHash8 n).length = 8 := by
  simp [hexHash8]

theorem ebHash_length (v : List FVal) (d : Nat) : (ebHash v d).length = 8 :=
  hexHash8_length _

theorem put_fst (r : Repo) (v : List FVal) (d : Nat) (md : MetaData) :
    (put r v d md).1 = ebHash v d := by
  unfold put
  by_cases hk : hasKey (ebHash v d) (objKeys r) = true <;> simp [hk]

theorem put_snd_of_has {r : Repo} {v : List FVal} {d : Nat} (md : MetaData)
    (hk : hasKey (ebHash v d) (objKeys r) = true) : (put r v d md).2 = r := by
  unfold put; simp [hk]

theorem put_snd_of_not {r : Repo} {v : List FVal} {d : Nat} (md : MetaData)
    (hk : hasKey (ebHash v d) (objKeys r) = false) :
    (put r v d md).2.objects = r.objects ++ [(ebHash v d, ⟨v, d⟩)] ∧
    (put r v d md).2.metas = r.metas ++ [(ebHash v d, md)] := by
  unfold put; simp [hk]

theorem store_fst (r : Repo) (s f m : String) (v : List FVal) (d : Nat) :
    (store r s f m v d).1 = ebHash v d := by
  simp [store, put_fst]

theorem store_objects (r : Repo) (s f m : String) (v : List FVal) (d : Nat) :
    (store r s f m v d).2.objects = (put r v d ⟨f, m⟩).2.objects := rfl

theorem store_metas (r : Repo) (s f m : String) (v : List FVal) (d : Nat) :
    (store r s f m v d).2.metas = (put r v d ⟨f, m⟩).2.metas := rfl

theorem resolve_mem_self {r : Repo} {h : List Char} (hlen : h.length = 8)
    (hmem : h ∈ objKeys r) : resolve r h = .ok h := by
  unfold resolve
  rw [if_neg (by omega), if_pos ((hasKey_iff h (objKeys r)).mpr hmem)]

theorem countKey_append {α : Type} [DecidableEq α] (k : α) (l1 l2 : List α) :
    countKey k (l1 ++ l2) = countKey k l1 + countKey k l2 := by
  induction l1 with
  | nil => simp [countKey]
  | cons x xs ih => simp [countKey, ih]; omega

theorem countKey_eq_zero_of_not_mem {α : Type} [DecidableEq α] {k : α} {l : List α}
    (h : k ∉ l) : countKey k l = 0 := by
  induction l with
  | nil => rfl
  | cons x xs ih =>
    simp only [List.mem_cons, not_or] at h
    have hne : x ≠ k := fun he => h.1 he.symm
    simp [countKey, hne, ih h.2]

theorem countKey_eq_one_of_mem {α : Type} [DecidableEq α] {k : α} {l : List α}
    (hnd : l.Nodup) (h : k ∈ l) : countKey k l = 1 := by
  induction l with
  | nil => simp at h
  | cons x xs ih =>
    rw [List.nodup_cons] at hnd
    rcases List.mem_cons.mp h with rfl | hx
    · simp [countKey, countKey_eq_zero_of_not_mem hnd.1]
    · have hne : x ≠ k := fun he => hnd.1 (he ▸ hx)
      simp [countKey, hne, ih hnd.2 hx]

theorem mem_insertDesc {x z : MockVersion} {l : List MockVersion}
    (h : z ∈ insertDesc x l) : z = x ∨ z ∈ l := by
  induction l with
  | nil => simpa [insertDesc] using h
  | cons y ys ih =>
    by_cases hc : y.timestamp < x.timestamp
    · simp only [insertDesc, if_pos hc] at h
      simpa using h
    · simp only [insertDesc, if_neg hc, List.mem_cons] at h
      rcases h with h | h
      · exact Or.inr (by simp [h])
      · rcases ih h with h' | h'
        · exact Or.inl h'
        · exact Or.inr (by simp [h'])

theorem pairwise_insertDesc {x : MockVersion} {l : List MockVersion}
    (h : List.Pairwise (fun a b => b.timestamp ≤ a.timestamp) l) :
    List.Pairwise (fun a b => b.timestamp ≤ a.timestamp) (insertDesc x l) := by
  induction l with
  | nil => simp [insertDesc]
  | cons y ys ih =>
    rw [List.pairwise_cons] at h
    by_cases hc : y.timestamp < x.timestamp
    · simp only [insertDesc, if_pos hc]
      rw [List.pairwise_cons]
      refine ⟨?_, List.pairwise_cons.mpr h⟩
      intro z hz
      rcases List.mem_cons.mp hz with rfl | hz'
      · exact Nat.le_of_lt hc
      · exact Nat.le_trans (h.1 z hz') (Nat.le_of_lt hc)
    · simp only [insertDesc, if_neg hc]
      rw [List.pairwise_cons]
      refine ⟨?_, ih h.2⟩
      intro z hz
      rcases mem_insertDesc hz with rfl | hz'
      · exact Nat.le_of_not_lt hc
      · exact h.1 z hz'

theorem pairwise_sortDesc (l : List MockVersion) :
    List.Pairwise (fun a b => b.timestamp ≤ a.timestamp) (sortDesc l) := by
  induction l with
  | nil => simp [sortDesc]
  | cons x xs ih => exact pairwise_insertDesc ih

theorem sqNormQ_cons (x : ℚ) (t : List ℚ) : sqNormQ (x :: t) = x * x + sqNormQ t := by
  simp [sqNormQ]

theorem sqNormQ_nonneg (l : List ℚ) : 0 ≤ sqNormQ l := by
  induction l with
  | nil => simp [sqNormQ]
  | cons x t ih =>
    rw [sqNormQ_cons]
    exact add_nonneg (mul_self_nonneg x) ih

theorem sqNormQ_eq_zero {l : List ℚ} (h : sqNormQ l = 0) : ∀ x ∈ l, x = 0 := by
  induction l with
  | nil => simp
  | cons y t ih =>
    rw [sqNormQ_cons] at h
    have hz := (add_eq_zero_iff_of_nonneg (mul_self_nonneg y) (sqNormQ_nonneg t)).mp h
    intro x hx
    rcases List.mem_cons.mp hx with rfl | hx'
    · exact mul_self_eq_zero.mp hz.1
    · exact ih hz.2 x hx'

/-! ## Claim theorems -/

/-- C1: the stored hash is a deterministic function of the embedding
values and the dimension count alone — storing byte-identical vectors
twice, under arbitrary (possibly different) sets, source files and models,
returns the same hash both times and leaves exactly one blob and exactly
one metadata sidecar for that hash in the object pool. -/
theorem store_hash_deterministic_dedup (r : Repo) (hwf : RepoWf r)
    (s1 f1 m1 s2 f2 m2 : String) (v : List FVal) (d : Nat) :
    (store r s1 f1 m1 v d).1 = ebHash v d ∧
    (store (store r s1 f1 m1 v d).2 s2 f2 m2 v d).1 = ebHash v d ∧
    countKey (ebHash v d) (objKeys (store (store r s1 f1 m1 v d).2 s2 f2 m2 v d).2) = 1 ∧
    countKey (ebHash v d) (metaKeys (store (store r s1 f1 m1 v d).2 s2 f2 m2 v d).2) = 1 := by
  obtain ⟨hnd, hmeq, _⟩ := hwf
  refine ⟨store_fst r s1 f1 m1 v d, store_fst _ s2 f2 m2 v d, ?_⟩
  by_cases hk : hasKey (ebHash v d) (objKeys r) = true
  · have ho1 : (store r s1 f1 m1 v d).2.objects = r.objects := by
      rw [store_objects, put_snd_of_has ⟨f1, m1⟩ hk]
    have hm1 : (store r s1 f1 m1 v d).2.metas = r.metas := by
      rw [store_metas, put_snd_of_has ⟨f1, m1⟩ hk]
    have hk1 : hasKey (ebHash v d) (objKeys (store r s1 f1 m1 v d).2) = true := by
      unfold objKeys; rw [ho1]; exact hk
    have ho2 : (store (store r s1 f1 m1 v d).2 s2 f2 m2 v d).2.objects = r.objects := by
      rw [store_objects, put_snd_of_has ⟨f2, m2⟩ hk1, ho1]
    have hm2 : (store (store r s1 f1 m1 v d).2 s2 f2 m2 v d).2.metas = r.metas := by
      rw [store_metas, put_snd_of_has ⟨f2, m2⟩ hk1, hm1]
    have hcnt : countKey (ebHash v d) (objKeys r) = 1 :=
      countKey_eq_one_of_mem hnd ((hasKey_iff _ _).mp hk)
    constructor
    · unfold objKeys; rw [ho2]; exact hcnt
    · unfold metaKeys; rw [hm2]
      show countKey (ebHash v d) (metaKeys r) = 1
      rw [hmeq]; exact hcnt
  · have hkf : hasKey (ebHash v d) (objKeys r) = false := by
      revert hk; cases hasKey (ebHash v d) (objKeys r) <;> simp
    have hnotmem : ebHash v d ∉ objKeys r := fun hm => by
      rw [(hasKey_iff _ _).mpr hm] at hkf; exact Bool.true_eq_false.mp hkf
    have hput := put_snd_of_not (r := r) (v := v) (d := d) ⟨f1, m1⟩ hkf
    have ho1 : objKeys (store r s1 f1 m1 v d).2 = objKeys r ++ [ebHash v d] := by
      unfold objKeys; rw [store_objects, hput.1]; simp [objKeys]
    have hm1 : metaKeys (store r s1 f1 m1 v d).2 = metaKeys r ++ [ebHash v d] := by
      unfold metaKeys; rw [store_metas, hput.2]; simp [metaKeys]
    have hk1 : hasKey (ebHash v d) (objKeys (store r s1 f1 m1 v d).2) = true := by
      rw [hasKey_iff, ho1]; simp
    have ho2 : (store (store r s1 f1 m1 v d).2 s2 f2 m2 v d).2.objects =
        (store r s1 f1 m1 v d).2.objects := by
      rw [store_objects, put_snd_of_has ⟨f2, m2⟩ hk1]
    have hm2 : (store (store r s1 f1 m1 v d).2 s2 f2 m2 v d).2.metas =
        (store r s1 f1 m1 v d).2.metas := by
      rw [store_metas, put_snd_of_has ⟨f2, m2⟩ hk1]
    have hcnt0 : countKey (ebHash v d) (objKeys r) = 0 :=
      countKey_eq_zero_of_not_mem hnotmem
    constructor
    · show countKey (ebHash v d)
        ((store (store r s1 f1 m1 v d).2 s2 f2 m2 v d).2.objects.map Prod.fst) = 1
      rw [ho2]
      show countKey (ebHash v d) (objKeys (store r s1 f1 m1 v d).2) = 1
      rw [ho1, countKey_append, hcnt0]
      simp [countKey]
    · show countKey (ebHash v d)
        ((store (store r s1 f1 m1 v d).2 s2 f2 m2 v d).2.metas.map Prod.fst) = 1
      rw [hm2]
      show countKey (ebHash v d) (metaKeys (store r s1 f1 m1 v d).2) = 1
      rw [hm1, hmeq, countKey_append, hcnt0]
      simp [countKey]

/-- Witness for C1: two stores of the same one-dimensional vector into the
empty repository, under different sets, sources and models. -/
theorem store_hash_deterministic_dedup_witness :
    RepoWf Repo.empty ∧
    ((store Repo.empty "main" "a.txt" "m1" [FVal.fin 1] 1).1 = ebHash [FVal.fin 1] 1 ∧
     (store (store Repo.empty "main" "a.txt" "m1" [FVal.fin 1] 1).2
        "alt" "b.txt" "m2" [FVal.fin 1] 1).1 = ebHash [FVal.fin 1] 1 ∧
     countKey (ebHash [FVal.fin 1] 1)
       (objKeys (store (store Repo.empty "main" "a.txt" "m1" [FVal.fin 1] 1).2
         "alt" "b.txt" "m2" [FVal.fin 1] 1).2) = 1 ∧
     countKey (ebHash [FVal.fin 1] 1)
       (metaKeys (store (store Repo.empty "main" "a.txt" "m1" [FVal.fin 1] 1).2
         "alt" "b.txt" "m2" [FVal.fin 1] 1).2) = 1) :=
  ⟨by decide,
   store_hash_deterministic_dedup Repo.empty (by decide) "main" "a.txt" "m1"
     "alt" "b.txt" "m2" [FVal.fin 1] 1⟩

/-- C2: diffing any stored hash against itself succeeds with exit code 0
and reports exactly 100% similarity, via the identity short-circuit and
regardless of the stored values (even non-finite ones). -/
theorem diff_self_identity (r : Repo) (hwf : RepoWf r) (h : List Char)
    (hmem : h ∈ objKeys r) :
    diff r h h = .similarity 100 ∧ exitCodeOf (diff r h h) = 0 := by
  have hres : resolve r h = .ok h := resolve_mem_self (hwf.2.2 h hmem) hmem
  have hd : diff r h h = .similarity 100 := by
    unfold diff; rw [hres]; simp
  exact ⟨hd, by rw [hd]; rfl⟩

/-- Witness for C2: self-diff of a concrete stored hash. -/
theorem diff_self_identity_witness :
    RepoWf resolveRepo ∧ hashX ∈ objKeys resolveRepo ∧
    (diff resolveRepo hashX hashX = .similarity 100 ∧
     exitCodeOf (diff resolveRepo hashX hashX) = 0) :=
  ⟨by decide, by decide, diff_self_identity resolveRepo (by decide) hashX (by decide)⟩

/-- C3: hash resolution — a reference shorter than four characters always
fails with "Hash too short"; a reference of length at least four matching
exactly one stored hash resolves to it; one matching two or more stored
hashes fails with "ambiguous hash"; one matching none fails with
"Embedding not found". -/
theorem resolve_contract (r : Repo) (hwf : RepoWf r) (ref : List Char) :
    (ref.length < 4 →
      resolve r ref = .error .hashTooShort ∧ errMsg .hashTooShort = "Hash too short") ∧
    (4 ≤ ref.length → ∀ h, (objKeys r).filter (fun k => isPrefixList ref k) = [h] →
      resolve r ref = .ok h) ∧
    (4 ≤ ref.length → 2 ≤ ((objKeys r).filter (fun k => isPrefixList ref k)).length →
      resolve r ref = .error .ambiguousHash ∧ errMsg .ambiguousHash = "ambiguous hash") ∧
    (4 ≤ ref.length → (objKeys r).filter (fun k => isPrefixList ref k) = [] →
      resolve r ref = .error .notFound ∧ errMsg .notFound = "Embedding not found") := by
  refine ⟨fun hlt => ⟨?_, rfl⟩, fun hge h hf => ?_, fun hge h2 => ⟨?_, rfl⟩,
    fun hge hf => ?_⟩
  · unfold resolve; rw [if_pos hlt]
  · by_cases hex : ref ∈ objKeys r
    · have hrefmem : ref ∈ (objKeys r).filter (fun k => isPrefixList ref k) :=
        List.mem_filter.mpr ⟨hex, isPrefixList_refl ref⟩
      rw [hf, List.mem_singleton] at hrefmem
      unfold resolve
      rw [if_neg (by omega), if_pos ((hasKey_iff _ _).mpr hex), hrefmem]
    · have hkf : hasKey ref (objKeys r) = false := by
        revert hex
        rw [← hasKey_iff]
        cases hasKey ref (objKeys r) <;> simp
      unfold resolve
      rw [if_neg (by omega), hkf]
      simp only [Bool.false_eq_true, if_false]
      rw [hf]
  · have hex : ref ∉ objKeys r := by
      intro hmem
      have hlen8 := hwf.2.2 ref hmem
      have hall : ∀ k ∈ (objKeys r).filter (fun k => isPrefixList ref k), k = ref := by
        intro k hk
        obtain ⟨hkm, hkp⟩ := List.mem_filter.mp hk
        have := isPrefixList_length_le hkp
        have hk8 := hwf.2.2 k hkm
        exact (isPrefixList_eq_of_length hkp (by omega)).symm
      have hnd : ((objKeys r).filter (fun k => isPrefixList ref k)).Nodup :=
        hwf.1.filter _
      rcases hfl : (objKeys r).filter (fun k => isPrefixList ref k) with _ | ⟨a, _ | ⟨b, t⟩⟩
      · rw [hfl] at h2; simp at h2
      · rw [hfl] at h2; simp at h2
      · rw [hfl] at hall hnd
        have ha := hall a (by simp)
        have hb := hall b (by simp)
        rw [List.nodup_cons] at hnd
        exact hnd.1 (by rw [ha, hb]; simp)
    have hkf : hasKey ref (objKeys r) = false := by
      revert hex
      rw [← hasKey_iff]
      cases hasKey ref (objKeys r) <;> simp
    unfold resolve
    rw [if_neg (by omega), hkf]
    simp only [Bool.false_eq_true, if_false]
    rcases hfl : (objKeys r).filter (fun k => isPrefixList ref k) with _ | ⟨a, _ | ⟨b, t⟩⟩
    · rw [hfl] at h2; simp at h2
    · rw [hfl] at h2; simp at h2
    · rfl
  · have hex : ref ∉ objKeys r := by
      intro hmem
      have : ref ∈ (objKeys r).filter (fun k => isPrefixList ref k) :=
        List.mem_filter.mpr ⟨hmem, isPrefixList_refl ref⟩
      rw [hf] at this
      simp at this
    have hkf : hasKey ref (objKeys r) = false := by
      revert hex
      rw [← hasKey_iff]
      cases hasKey ref (objKeys r) <;> simp
    refine ⟨?_, rfl⟩
    unfold resolve
    rw [if_neg (by omega), hkf]
    simp only [Bool.false_eq_true, if_false]
    rw [hf]

/-- Witness for C3: the four resolution outcomes on a concrete repository
whose hashes are `aaaa0001`, `aaaa0002` and `bbcc0003`. -/
theorem resolve_contract_witness :
    RepoWf resolveRepo ∧
    (resolve resolveRepo ['a', 'b', 'c'] = .error .hashTooShort ∧
      errMsg .hashTooShort = "Hash too short") ∧
    resolve resolveRepo ['b', 'b', 'c', 'c'] = .ok hashZ ∧
    (resolve resolveRepo ['a', 'a', 'a', 'a'] = .error .ambiguousHash ∧
      errMsg .ambiguousHash = "ambiguous hash") ∧
    (resolve resolveRepo ['z', 'z', 'z', 'z'] = .error .notFound ∧
      errMsg .notFound = "Embedding not found") :=
  ⟨by decide,
   (resolve_contract resolveRepo (by decide) ['a', 'b', 'c']).1 (by decide),
   (resolve_contract resolveRepo (by decide) ['b', 'b', 'c', 'c']).2.1 (by decide)
     hashZ (by decide),
   (resolve_contract resolveRepo (by decide) ['a', 'a', 'a', 'a']).2.2.1 (by decide)
     (by decide),
   (resolve_contract resolveRepo (by decide) ['z', 'z', 'z', 'z']).2.2.2 (by decide)
     (by decide)⟩

/-- C4: diffing two stored embeddings of different dimensions fails with
the dimension-mismatch error (exit code 1, stderr phrase "Embedding
dimensions do not match") and never yields a numeric score; likewise the
Python `compare_embeddings` interface raises its shape ValueError for 1-D
arrays of different lengths. -/
theorem diff_dimension_mismatch_guard (r : Repo) (hwf : RepoWf r)
    (h1 h2 : List Char) (o1 o2 : EmbObj)
    (hm1 : findVal h1 r.objects = some o1) (hm2 : findVal h2 r.objects = some o2)
    (hd : o1.dims ≠ o2.dims) :
    diff r h1 h2 = .fail .dimensionMismatch ∧
    exitCodeOf (diff r h1 h2) = 1 ∧
    errMsg .dimensionMismatch = "Embedding dimensions do not match" ∧
    (∀ s, diff r h1 h2 ≠ .similarity s) ∧
    (∀ da db : List ℚ, da.length ≠ db.length →
      compare_embeddings ⟨[da.length], da⟩ ⟨[db.length], db⟩ =
        .error "Embedding arrays must have the same shape") := by
  have hk1 : h1 ∈ objKeys r := findVal_mem_keys hm1
  have hk2 : h2 ∈ objKeys r := findVal_mem_keys hm2
  have hne : h1 ≠ h2 := by
    intro he
    rw [he, hm2] at hm1
    exact hd (by rw [Option.some.injEq] at hm1; rw [hm1])
  have hdiff : diff r h1 h2 = .fail .dimensionMismatch := by
    unfold diff
    rw [resolve_mem_self (hwf.2.2 h1 hk1) hk1, resolve_mem_self (hwf.2.2 h2 hk2) hk2]
    simp only
    rw [if_neg hne, hm1, hm2]
    simp only
    rw [if_pos hd]
  refine ⟨hdiff, by rw [hdiff]; rfl, rfl, ?_, ?_⟩
  · intro s hs
    rw [hdiff] at hs
    exact DiffOutcome.noConfusion hs
  · intro da db hlen
    unfold compare_embeddings
    rw [if_pos (by simpa using hlen)]

/-- Witness for C4: stored objects of dimensions 2 and 3, and 1-D arrays
of lengths 2 and 3. -/
theorem diff_dimension_mismatch_guard_witness :
    RepoWf dimRepo ∧
    findVal hashX dimRepo.objects = some ⟨[FVal.fin 1, FVal.fin 2], 2⟩ ∧
    findVal hashZ dimRepo.objects = some ⟨[FVal.fin 1, FVal.fin 2, FVal.fin 3], 3⟩ ∧
    (2 : Nat) ≠ 3 ∧
    (diff dimRepo hashX hashZ = .fail .dimensionMismatch ∧
     exitCodeOf (diff dimRepo hashX hashZ) = 1 ∧
     errMsg .dimensionMismatch = "Embedding dimensions do not match" ∧
     (∀ s, diff dimRepo hashX hashZ ≠ .similarity s) ∧
     (∀ da db : List ℚ, da.length ≠ db.length →
       compare_embeddings ⟨[da.length], da⟩ ⟨[db.length], db⟩ =
         .error "Embedding arrays must have the same shape")) :=
  ⟨by decide, by decide, by decide, by decide,
   diff_dimension_mismatch_guard dimRepo (by decide) hashX hashZ
     ⟨[FVal.fin 1, FVal.fin 2], 2⟩ ⟨[FVal.fin 1, FVal.fin 2, FVal.fin 3], 3⟩
     (by decide) (by decide) (by decide)⟩

/-- Counterexample for C5 as stated: in a repository holding a stored
NaN embedding (dimension 3) and a stored finite embedding (dimension 1),
a self-diff of the NaN hash emits the numeric 100% score through the
identity short-circuit, and a diff against the different-dimension hash
fails with the dimension-mismatch error rather than the data-integrity
one — so not every diff involving a NaN embedding fails with "Invalid
embedding values". -/
theorem diff_nan_claim_counterexample :
    nanVec.all FVal.isFiniteVal = false ∧
    c5HashNan ∈ objKeys c5Repo ∧
    diff c5Repo c5HashNan c5HashNan = .similarity 100 ∧
    diff c5Repo c5HashNan c5HashSmall = .fail .dimensionMismatch := by
  decide

/-- C5 (amended): storing an embedding with NaN/Inf succeeds (its object
lands in the pool), and any diff of it against a distinct stored hash of
equal dimension fails with the data-integrity error "Invalid embedding
values" (exit code 1) and never emits a numeric score; a self-diff is
taken by the identity short-circuit and a different-dimension diff by the
dimension-mismatch error. -/
theorem diff_invalid_values_guard (r : Repo) (hwf : RepoWf r)
    (h1 h2 : List Char) (o1 o2 : EmbObj)
    (hm1 : findVal h1 r.objects = some o1) (hm2 : findVal h2 r.objects = some o2)
    (hne : h1 ≠ h2) (hdim : o1.dims = o2.dims)
    (hinv : (o1.vals.all FVal.isFiniteVal && o2.vals.all FVal.isFiniteVal) = false) :
    diff r h1 h2 = .fail .invalidValues ∧
    exitCodeOf (diff r h1 h2) = 1 ∧
    errMsg .invalidValues = "Invalid embedding values" ∧
    (∀ s, diff r h1 h2 ≠ .similarity s) ∧
    (∀ (r' : Repo) (sn src mdl : String) (w : List FVal) (dw : Nat),
      ebHash w dw ∈ objKeys (store r' sn src mdl w dw).2) := by
  have hk1 : h1 ∈ objKeys r := findVal_mem_keys hm1
  have hk2 : h2 ∈ objKeys r := findVal_mem_keys hm2
  have hdiff : diff r h1 h2 = .fail .invalidValues := by
    unfold diff
    rw [resolve_mem_self (hwf.2.2 h1 hk1) hk1, resolve_mem_self (hwf.2.2 h2 hk2) hk2]
    simp only
    rw [if_neg hne, hm1, hm2]
    simp only
    rw [if_neg (by simp [hdim]), if_neg (by simp [hinv])]
  refine ⟨hdiff, by rw [hdiff]; rfl, rfl, ?_, ?_⟩
  · intro s hs
    rw [hdiff] at hs
    exact DiffOutcome.noConfusion hs
  · intro r' sn src mdl w dw
    by_cases hk : hasKey (ebHash w dw) (objKeys r') = true
    · have : (store r' sn src mdl w dw).2.objects = r'.objects := by
        rw [store_objects, put_snd_of_has ⟨src, mdl⟩ hk]
      unfold objKeys
      rw [this]
      exact (hasKey_iff _ _).mp hk
    · have hkf : hasKey (ebHash w dw) (objKeys r') = false := by
        revert hk; cases hasKey (ebHash w dw) (objKeys r') <;> simp
      have hput := put_snd_of_not (r := r') (v := w) (d := dw) ⟨src, mdl⟩ hkf
      unfold objKeys
      rw [store_objects, hput.1, List.map_append]
      refine List.mem_append_right _ ?_
      simp

/-- Witness for C5 (amended): two equal-dimension stored objects, the
first containing NaN. -/
theorem diff_invalid_values_guard_witness :
    RepoWf c5WRepo ∧
    findVal hashX c5WRepo.objects = some ⟨[FVal.nan, FVal.fin 1], 2⟩ ∧
    findVal hashY c5WRepo.objects = some ⟨[FVal.fin 1, FVal.fin 2], 2⟩ ∧
    hashX ≠ hashY ∧
    (diff c5WRepo hashX hashY = .fail .invalidValues ∧
     exitCodeOf (diff c5WRepo hashX hashY) = 1 ∧
     errMsg .invalidValues = "Invalid embedding values" ∧
     (∀ s, diff c5WRepo hashX hashY ≠ .similarity s) ∧
     (∀ (r' : Repo) (sn src mdl : String) (w : List FVal) (dw : Nat),
       ebHash w dw ∈ objKeys (store r' sn src mdl w dw).2)) :=
  ⟨by decide, by decide, by decide, by decide,
   diff_invalid_values_guard c5WRepo (by decide) hashX hashY
     ⟨[FVal.nan, FVal.fin 1], 2⟩ ⟨[FVal.fin 1, FVal.fin 2], 2⟩
     (by decide) (by decide) (by decide) (by decide) (by decide)⟩

/-- C6: a successful rollback rewrites only the current index pointer of
the given (source, model) pair: afterwards status reports the target hash
as current, the whole previous history is preserved with exactly one new
rollback-kind entry appended, the object pool and sidecars are untouched,
every other index entry is unchanged, and every other set is unchanged. -/
theorem rollback_frame (r : Repo) (setName source model : String)
    (ref h prev : List Char)
    (hres : resolve r ref = .ok h)
    (htr : findVal (source, model) (getSet r setName).index = some prev) :
    ∃ r', rollback r setName source model ref = .ok r' ∧
      statusOf r' setName source model = some h ∧
      (getSet r' setName).history =
        (getSet r setName).history ++ [⟨source, model, h, some prev, .rollback⟩] ∧
      (∀ e ∈ (getSet r setName).history, e ∈ (getSet r' setName).history) ∧
      (∀ k, k ≠ (source, model) →
        findVal k (getSet r' setName).index = findVal k (getSet r setName).index) ∧
      r'.objects = r.objects ∧ r'.metas = r.metas ∧
      (∀ s', s' ≠ setName → findVal s' r'.sets = findVal s' r.sets) := by
  let ss' : SetState :=
    ⟨updVal (source, model) h (getSet r setName).index,
     (getSet r setName).history ++ [⟨source, model, h, some prev, .rollback⟩]⟩
  refine ⟨{ r with sets := updVal setName ss' r.sets }, ?_, ?_, ?_, ?_, ?_, rfl, rfl, ?_⟩
  · unfold rollback
    rw [hres]
    simp only
    rw [htr]
  · unfold statusOf getSet
    simp only [findVal_updVal_self]
    exact findVal_updVal_self _ _ _
  · unfold getSet
    simp only [findVal_updVal_self]
    rfl
  · intro e he
    unfold getSet
    simp only [findVal_updVal_self]
    exact List.mem_append_left _ he
  · intro k hk
    unfold getSet
    simp only [findVal_updVal_self]
    exact findVal_updVal_ne _ _ hk
  · intro s' hs'
    exact findVal_updVal_ne _ _ hs'

/-- Witness for C6: rolling `("f", "m")` back from `hashY` to `hashX` in a
concrete repository with a two-entry history. -/
theorem rollback_frame_witness :
    (resolve rbRepo hashX = .ok hashX ∧
     findVal ("f", "m") (getSet rbRepo "main").index = some hashY) ∧
    (∃ r', rollback rbRepo "main" "f" "m" hashX = .ok r' ∧
      statusOf r' "main" "f" "m" = some hashX ∧
      (getSet r' "main").history =
        (getSet rbRepo "main").history ++ [⟨"f", "m", hashX, some hashY, .rollback⟩] ∧
      (∀ e ∈ (getSet rbRepo "main").history, e ∈ (getSet r' "main").history) ∧
      (∀ k, k ≠ ("f", "m") →
        findVal k (getSet r' "main").index = findVal k (getSet rbRepo "main").index) ∧
      r'.objects = rbRepo.objects ∧ r'.metas = rbRepo.metas ∧
      (∀ s', s' ≠ "main" → findVal s' r'.sets = findVal s' rbRepo.sets)) :=
  ⟨⟨by rfl, by rfl⟩,
   rollback_frame rbRepo "main" "f" "m" hashX hashX hashY (by rfl) (by rfl)⟩

/-- Counterexample for C7 as stated: after storing two versions of vector
id 1 at timestamps 1 and 2, the evolution returned by the bridge lists the
timestamp-2 version first — the entries are not ordered oldest first
(chronologically ascending). -/
theorem evolution_oldest_first_counterexample :
    (get_vector_evolution evoB2 1 none none).versions.map MockVersion.timestamp = [2, 1] ∧
    ¬ List.Pairwise (fun a b => a ≤ b)
      ((get_vector_evolution evoB2 1 none none).versions.map MockVersion.timestamp) := by
  decide

/-- C7 (amended): the history-retrieval operation
(`get_vector_evolution`, backing `get_memory_evolution`) returns the
entries ordered newest first — timestamps are non-increasing along the
returned version list (the mock sorts with `reverse=True`); no
current-pointer marking is part of the returned data. -/
theorem evolution_newest_first (b : MockBridge) (vid : Nat)
    (fromT toT : Option Nat) :
    List.Pairwise (fun a b : MockVersion => b.timestamp ≤ a.timestamp)
      (get_vector_evolution b vid fromT toT).versions := by
  unfold get_vector_evolution
  cases findVal vid b.vectorVersions with
  | none => simp
  | some versions =>
    simp only
    exact pairwise_sortDesc _

/-- C8: the argv that `model_register` hands to the model command for the
repository's own registration example — the dimensions value appears as a
bare positional `"1536"`, with no `--dimensions` flag anywhere in the
constructed argument vector, unlike the documented command surface
`model register <name> --dimensions N [--normalize]`. -/
theorem model_register_args_lacks_dimensions_flag :
    model_register_args "text-embedding-3-small" 1536 true none =
      ["model", "register", "text-embedding-3-small", "1536", "--normalize"] ∧
    "--dimensions" ∉ model_register_args "text-embedding-3-small" 1536 true none := by
  decide

/-- C9: `store_memory` rejects any embedding whose `ndim` differs from 1
with `ValueError("Embedding must be a 1D array")` and leaves the bridge
state untouched; for a 1-D embedding the guard passes, the version is
stored under the expected id, and that id's version list grows by one. -/
theorem store_memory_ndim_guard (b : MockBridge) (shape : List Nat)
    (vec : List ℚ) (meta : List (String × String)) (mv : String)
    (vecId : Option Nat) (now : Nat) :
    (shape.length ≠ 1 →
      store_memory b shape vec meta mv vecId now =
        (b, .error "Embedding must be a 1D array")) ∧
    (shape.length = 1 →
      (store_memory b shape vec meta mv vecId now).2 = .ok (vecId.getD b.nextId) ∧
      ((findVal (vecId.getD b.nextId)
          (store_memory b shape vec meta mv vecId now).1.vectorVersions).getD []).length =
        ((findVal (vecId.getD b.nextId) b.vectorVersions).getD []).length + 1) := by
  constructor
  · intro hnd
    unfold store_memory
    rw [if_pos hnd]
  · intro h1
    unfold store_memory
    rw [if_neg (by omega)]
    refine ⟨rfl, ?_⟩
    unfold store_vector
    simp only [findVal_updVal_self, Option.getD_some, List.length_append,
      List.length_cons, List.length_nil]

/-- Witness for C9: a 2-D shape is rejected without touching the bridge;
a 1-D shape is stored under the fresh id 1. -/
theorem store_memory_ndim_guard_witness :
    (([4, 3] : List Nat).length ≠ 1 ∧
     store_memory MockBridge.empty [4, 3] [1, 2] [] "m" none 7 =
       (MockBridge.empty, .error "Embedding must be a 1D array")) ∧
    (([2] : List Nat).length = 1 ∧
     (store_memory MockBridge.empty [2] [1, 2] [] "m" none 7).2 =
       .ok ((none : Option Nat).getD MockBridge.empty.nextId) ∧
     ((findVal ((none : Option Nat).getD MockBridge.empty.nextId)
        (store_memory MockBridge.empty [2] [1, 2] [] "m" none 7).1.vectorVersions).getD
        []).length =
       ((findVal ((none : Option Nat).getD MockBridge.empty.nextId)
          MockBridge.empty.vectorVersions).getD []).length + 1) :=
  ⟨⟨by decide,
    (store_memory_ndim_guard MockBridge.empty [4, 3] [1, 2] [] "m" none 7).1 (by decide)⟩,
   ⟨by decide,
    (store_memory_ndim_guard MockBridge.empty [2] [1, 2] [] "m" none 7).2 (by decide)⟩⟩

/-- C10: the normalization step never divides by zero — each row's
divisor is positive; an all-zero row keeps divisor 1 (and consists only of
zeros, so dividing changes nothing); a row with nonzero norm is scaled to
exactly unit norm (its squared norm divided by the squared divisor is
1). -/
theorem normalizeRows_guard (a : List (List ℚ)) :
    ∀ p ∈ normalizeRows a,
      0 < p.2 ∧
      (sqNormQ p.1 = 0 → p.2 = 1 ∧ ∀ x ∈ p.1, x = 0) ∧
      (sqNormQ p.1 ≠ 0 → sqNormQ p.1 / p.2 = 1) := by
  intro p hp
  simp only [normalizeRows, List.mem_map] at hp
  obtain ⟨rr, _, rfl⟩ := hp
  refine ⟨?_, fun h0 => ⟨by simp [normDivSq, h0], sqNormQ_eq_zero h0⟩, fun hne => ?_⟩
  · show 0 < normDivSq rr
    unfold normDivSq
    split
    · exact one_pos
    · next hz => exact lt_of_le_of_ne (sqNormQ_nonneg rr) (Ne.symm hz)
  · show sqNormQ rr / normDivSq rr = 1
    rw [normDivSq, if_neg hne, div_self hne]

/-- Witness for C10: a 2-D array with one all-zero row and the row
`[3, 4]` of squared norm 25. -/
theorem normalizeRows_guard_witness :
    (([3, 4], (25 : ℚ)) ∈ normalizeRows [[0, 0], [3, 4]]) ∧
    (0 < (([3, 4], (25 : ℚ)) : List ℚ × ℚ).2 ∧
     (sqNormQ (([3, 4], (25 : ℚ)) : List ℚ × ℚ).1 = 0 →
       (([3, 4], (25 : ℚ)) : List ℚ × ℚ).2 = 1 ∧
       ∀ x ∈ (([3, 4], (25 : ℚ)) : List ℚ × ℚ).1, x = 0) ∧
     (sqNormQ (([3, 4], (25 : ℚ)) : List ℚ × ℚ).1 ≠ 0 →
       sqNormQ (([3, 4], (25 : ℚ)) : List ℚ × ℚ).1 /
         (([3, 4], (25 : ℚ)) : List ℚ × ℚ).2 = 1)) :=
  ⟨by norm_num [normalizeRows, normDivSq, sqNormQ],
   normalizeRows_guard [[0, 0], [3, 4]] ([3, 4], (25 : ℚ))
     (by norm_num [normalizeRows, normDivSq, sqNormQ])⟩

end EB
